import Mathlib

/-!
Verification of the image-generation package's index and search subsystem.

Strings are modelled as `List Char` (JS strings), numbers that flow through
JSON as `ℚ` (JS numbers; all values relevant here are small integers, where
binary floating point is exact), and fallible operations as `Option`/`Except`.
The definitions mirror the TypeScript source:
  * `similarity`            — the keyword similarity scorer (tools/searchImages);
  * the JSON printer/parser — model of `JSON.stringify`/`JSON.parse` used by
                              `addToIndex` and the search line parser;
  * `searchExecute`         — the search tool pipeline;
  * `reindex`               — `ImageGenerationService.reindex`;
  * `aspectSizing`          — the aspect-ratio switch of the generate tool.
-/

/-- Character class of the JS regex `\s` (also used by `String.prototype.trim`). -/
def isWsChar (c : Char) : Bool :=
  c.toNat = 32 || (9 ≤ c.toNat && c.toNat ≤ 13) || c.toNat = 0xa0 ||
  c.toNat = 0x1680 || (0x2000 ≤ c.toNat && c.toNat ≤ 0x200a) ||
  c.toNat = 0x2028 || c.toNat = 0x2029 || c.toNat = 0x202f ||
  c.toNat = 0x205f || c.toNat = 0x3000 || c.toNat = 0xfeff

/-- Model of `String.prototype.toLowerCase` (ASCII fragment, which is all the
source exercises). -/
def jsLower (s : List Char) : List Char := s.map Char.toLower

/-- Does `need` match the front of `hay`? -/
def leadEq : List Char → List Char → Bool
  | [], _ => true
  | _ :: _, [] => false
  | a :: as, b :: bs => a == b && leadEq as bs

/-- Model of `hay.includes(need)` on JS strings: substring containment.
`"x".includes("")` is `true`, matching JS. -/
def jsIncludes (hay need : List Char) : Bool :=
  leadEq need hay ||
    match hay with
    | [] => false
    | _ :: t => jsIncludes t need

mutual
/-- Model of `s.split(/\s+/)`: fields between maximal whitespace runs.  A
leading/trailing run produces an empty field, as in JS (`" a".split(/\s+/)`
is `["", "a"]`, `"".split(/\s+/)` is `[""]`). `cur` is the current field,
reversed. -/
def splitWsGo (cur : List Char) : List Char → List (List Char)
  | [] => [cur.reverse]
  | c :: rest =>
      if isWsChar c then cur.reverse :: splitWsSkip rest else splitWsGo (c :: cur) rest

/-- After a whitespace character: consume the rest of the run, then continue
with a fresh field. -/
def splitWsSkip : List Char → List (List Char)
  | [] => [[]]
  | c :: rest => if isWsChar c then splitWsSkip rest else splitWsGo [c] rest
end

/-- `s.split(/\s+/)` from the similarity scorer. -/
def jsSplitWs (s : List Char) : List (List Char) := splitWsGo [] s

/-- The similarity scorer from the search tool:

    function similarity(a, b) {
      const aLower = a.toLowerCase(); const bLower = b.toLowerCase();
      if (aLower === bLower) return 1.0;
      if (aLower.includes(bLower) || bLower.includes(aLower)) return 0.8;
      const aWords = aLower.split(/\s+/); const bWords = bLower.split(/\s+/);
      const matches = aWords.filter(w => bWords.includes(w)).length;
      return matches / Math.max(aWords.length, bWords.length);
    }
-/
def similarity (a b : List Char) : ℚ :=
  let aLower := jsLower a
  let bLower := jsLower b
  if aLower = bLower then 1.0
  else if jsIncludes aLower bLower || jsIncludes bLower aLower then 0.8
  else
    let aWords := jsSplitWs aLower
    let bWords := jsSplitWs bLower
    let matchCount := (aWords.filter (fun w => bWords.contains w)).length
    (matchCount : ℚ) / (max aWords.length bWords.length : ℚ)

theorem contains_eq_mem_decide (l : List (List Char)) (w : List Char) :
    l.contains w = decide (w ∈ l) := by
  induction l with
  | nil => simp
  | cons x xs ih =>
      by_cases h : w = x
      · subst h; simp [List.contains_cons]
      · simp [List.contains_cons, ih, h, Ne.symm h]

/-- C1: the similarity scorer follows the three-step specification —
1.0 on lower-cased equality, else 0.8 on substring containment, else
matchCount / max(#queryWords, #candidateWords) where both strings are split
on runs of whitespace and matchCount counts query words occurring in the
candidate's word list; in particular score("cat","category") =
score("category","cat") = 0.8 and score("a b","b c") = 0.5. -/
theorem similarity_follows_spec :
    (∀ a b : List Char,
      similarity a b =
        if jsLower a = jsLower b then 1
        else if jsIncludes (jsLower a) (jsLower b) ∨ jsIncludes (jsLower b) (jsLower a) then
          0.8
        else
          (((jsSplitWs (jsLower a)).filter
              (fun w => decide (w ∈ jsSplitWs (jsLower b)))).length : ℚ) /
            (max (jsSplitWs (jsLower a)).length (jsSplitWs (jsLower b)).length : ℚ)) ∧
    similarity "cat".data "category".data = 0.8 ∧
    similarity "category".data "cat".data = 0.8 ∧
    similarity "a b".data "b c".data = 0.5 := by
  refine ⟨fun a b => ?_, by with_unfolding_all decide, by with_unfolding_all decide,
    by with_unfolding_all decide⟩
  have hf : (jsSplitWs (jsLower a)).filter (fun w => (jsSplitWs (jsLower b)).contains w)
      = (jsSplitWs (jsLower a)).filter (fun w => decide (w ∈ jsSplitWs (jsLower b))) :=
    List.filter_congr (fun x _ => contains_eq_mem_decide _ x)
  unfold similarity
  by_cases h1 : jsLower a = jsLower b
  · simp only [if_pos h1]; norm_num
  · by_cases h2 : (jsIncludes (jsLower a) (jsLower b) || jsIncludes (jsLower b) (jsLower a)) = true
    · have h2p : jsIncludes (jsLower a) (jsLower b) = true ∨
          jsIncludes (jsLower b) (jsLower a) = true := by
        rw [← Bool.or_eq_true]; exact h2
      simp only [if_neg h1]
      rw [if_pos h2, if_pos h2p]
    · have h2p : ¬ (jsIncludes (jsLower a) (jsLower b) = true ∨
          jsIncludes (jsLower b) (jsLower a) = true) := by
        rw [Bool.or_eq_true] at h2; exact h2
      simp only [if_neg h1]
      rw [if_neg h2, if_neg h2p]
      simp only [hf]

/-- C2 counterexample: the claim `score("","") = 0` is false on the code —
the empty strings are equal, so the exact-equality branch fires. -/
theorem similarity_empty_empty_ne_zero : similarity [] [] ≠ 0 := by
  with_unfolding_all decide

/-- C2 (amended): `score("","") = 1.0`, because the lower-cased strings are
exactly equal and the exact-equality rule fires before any word splitting. -/
theorem similarity_empty_empty_eq_one : similarity [] [] = 1 := by
  with_unfolding_all decide

/-- JSON values, as produced by `JSON.parse`. -/
inductive Json where
  | null
  | bool (b : Bool)
  | num (q : ℚ)
  | str (s : List Char)
  | arr (elems : List Json)
  | obj (members : List (List Char × Json))

/-- The decimal digit character for `n < 10`. -/
def digitChar (n : Nat) : Char := Char.ofNat (48 + n)

/-- Decimal digits of `n`, least significant first; `fuel ≥ n + 1` always
suffices (structural recursion on `fuel` keeps the definition computable by
the kernel). -/
def natDigitsRevAux : Nat → Nat → List Char
  | _, 0 => []
  | n, fuel + 1 =>
    if n < 10 then [digitChar n]
    else digitChar (n % 10) :: natDigitsRevAux (n / 10) fuel

/-- Decimal representation of a natural number, as JS prints integers. -/
def natDigits (n : Nat) : List Char := (natDigitsRevAux n (n + 1)).reverse

/-- Decimal representation of an integer. -/
def intDigits (i : Int) : List Char :=
  if i < 0 then '-' :: natDigits i.natAbs else natDigits i.natAbs

/-- Lower-case hexadecimal digit character for `n < 16`. -/
def hexDigitChar (n : Nat) : Char := Char.ofNat (if n < 10 then 48 + n else 87 + n)

/-- How `JSON.stringify` escapes one character inside a string literal. -/
def escChar (c : Char) : List Char :=
  if c = '"' then ['\\', '"']
  else if c = '\\' then ['\\', '\\']
  else if c.toNat = 8 then ['\\', 'b']
  else if c.toNat = 9 then ['\\', 't']
  else if c.toNat = 10 then ['\\', 'n']
  else if c.toNat = 12 then ['\\', 'f']
  else if c.toNat = 13 then ['\\', 'r']
  else if c.toNat < 32 then
    ['\\', 'u', '0', '0', hexDigitChar (c.toNat / 16), hexDigitChar (c.toNat % 16)]
  else [c]

/-- The escaped body of a JSON string literal. -/
def escBody (s : List Char) : List Char := (s.map escChar).flatten

/-- Number rendering for JSON output.  Every number this package writes is a
non-negative integer (pixel sizes and dimensions), where this is exact; the
non-integral fallback is never exercised by the code under verification. -/
def numLit (q : ℚ) : List Char :=
  if q.den = 1 then intDigits q.num
  else intDigits q.num ++ '%' :: natDigits q.den

mutual
/-- Model of JS string conversion (template literal / `String()`) of a JSON
value, used when the search tool interpolates `${targetDir}/${r.filename}`. -/
def jsToStr : Json → List Char
  | .null => "null".data
  | .bool true => "true".data
  | .bool false => "false".data
  | .num q => numLit q
  | .str s => s
  | .arr xs => jsJoinElems ",".data xs
  | .obj _ => "[object Object]".data

/-- Model of `Array.prototype.join(sep)`: `null` elements render as the empty
string, other elements via string conversion. -/
def jsJoinElems (sep : List Char) : List Json → List Char
  | [] => []
  | x :: xs =>
      (match x with
       | .null => []
       | y => jsToStr y) ++
      (match xs with
       | [] => []
       | _ :: _ => sep ++ jsJoinElems sep xs)
end

/-- Property access `obj.k` on a parsed JSON value; `none` models JS
`undefined`.  `JSON.parse` keeps the last of duplicate keys, hence the
reversed search. -/
def objField : Json → List Char → Option Json
  | .obj ms, k => (ms.reverse.find? (fun m => m.1 == k)).map (fun m => m.2)
  | _, _ => none

/-- Template-literal interpolation of a possibly-undefined value. -/
def jsInterp : Option Json → List Char
  | none => "undefined".data
  | some j => jsToStr j

mutual
/-- Model of `JSON.stringify` with no indentation, as `addToIndex` and
`reindex` call it. -/
def stringifyJson : Json → List Char
  | .null => "null".data
  | .bool true => "true".data
  | .bool false => "false".data
  | .num q => numLit q
  | .str s => '"' :: escBody s ++ ['"']
  | .arr xs => '[' :: stringifyElems xs ++ [']']
  | .obj ms => '{' :: stringifyMembers ms ++ ['}']

/-- Comma-separated stringified array elements. -/
def stringifyElems : List Json → List Char
  | [] => []
  | [x] => stringifyJson x
  | x :: xs => stringifyJson x ++ ',' :: stringifyElems xs

/-- Comma-separated stringified object members. -/
def stringifyMembers : List (List Char × Json) → List Char
  | [] => []
  | [(k, v)] => '"' :: escBody k ++ '"' :: ':' :: stringifyJson v
  | (k, v) :: ms =>
      '"' :: escBody k ++ '"' :: ':' :: stringifyJson v ++ ',' :: stringifyMembers ms
end

/-- C10 counterexample: a record whose keyword list is the non-empty list
[""] joins to the empty candidate text, and the empty query then scores 1.0
against it, not 0.8 — so the claim as stated fails. -/
theorem empty_query_keywords_cex :
    ([Json.str []] : List Json) ≠ [] ∧
    jsJoinElems " ".data [Json.str []] = [] ∧
    similarity [] (jsJoinElems " ".data [Json.str []]) ≠ 0.8 := by
  refine ⟨by simp, rfl, by with_unfolding_all decide⟩

/-- C10 (amended): the similarity scorer applied to the empty-string query
returns 0.8 for every non-empty candidate text (the empty string is a
substring of every string), so an empty query gives every index record whose
keywords join to a non-empty text the score 0.8 (which passes the
strictly-positive score filter); a record whose keywords join to the empty
text instead scores 1.0. -/
theorem empty_query_scores_point_eight :
    (∀ b : List Char, b ≠ [] → similarity [] b = 0.8 ∧ 0 < similarity [] b) ∧
    (∀ ks : List Json, jsJoinElems " ".data ks = [] →
      similarity [] (jsJoinElems " ".data ks) = 1) := by
  constructor
  · intro b hb
    obtain ⟨c, t, rfl⟩ : ∃ c t, b = c :: t := by
      cases b with
      | nil => exact absurd rfl hb
      | cons c t => exact ⟨c, t, rfl⟩
    have h08 : similarity [] (c :: t) = 0.8 := by
      unfold similarity
      simp [jsLower, jsIncludes, leadEq]
    refine ⟨h08, by rw [h08]; norm_num⟩
  · intro ks h
    rw [h]
    with_unfolding_all decide

/-- Witness for the amended C10 at concrete inputs. -/
theorem empty_query_scores_point_eight_witness :
    similarity [] "sunset".data = 0.8 ∧
    similarity [] (jsJoinElems " ".data []) = 1 :=
  ⟨(empty_query_scores_point_eight.1 "sunset".data (by decide)).1,
   empty_query_scores_point_eight.2 [] rfl⟩

/-- JSON insignificant whitespace. -/
def isJWs (c : Char) : Bool := c = ' ' || c = '\t' || c = '\n' || c = '\r'

/-- Skip insignificant JSON whitespace. -/
def skipJWs (s : List Char) : List Char := s.dropWhile isJWs

/-- Value of a hexadecimal digit character. -/
def hexVal (c : Char) : Option Nat :=
  if 48 ≤ c.toNat ∧ c.toNat ≤ 57 then some (c.toNat - 48)
  else if 97 ≤ c.toNat ∧ c.toNat ≤ 102 then some (c.toNat - 87)
  else if 65 ≤ c.toNat ∧ c.toNat ≤ 70 then some (c.toNat - 55)
  else none

/-- Single-character JSON string escapes. -/
def unescChar (c : Char) : Option Char :=
  if c = '"' then some '"'
  else if c = '\\' then some '\\'
  else if c = '/' then some '/'
  else if c = 'b' then some (Char.ofNat 8)
  else if c = 'f' then some (Char.ofNat 12)
  else if c = 'n' then some (Char.ofNat 10)
  else if c = 'r' then some (Char.ofNat 13)
  else if c = 't' then some (Char.ofNat 9)
  else none

/-- Parse the body of a JSON string literal (after the opening quote) up to
and including the closing quote; raw control characters are rejected, as in
`JSON.parse`. -/
def parseStrBody : List Char → Option (List Char × List Char)
  | [] => none
  | c :: rest =>
    if c = '"' then some ([], rest)
    else if c = '\\' then
      match rest with
      | 'u' :: h1 :: h2 :: h3 :: h4 :: rest2 =>
        (match hexVal h1, hexVal h2, hexVal h3, hexVal h4 with
         | some a, some b, some c2, some d =>
           (parseStrBody rest2).map
             (fun p => (Char.ofNat (a * 4096 + b * 256 + c2 * 16 + d) :: p.1, p.2))
         | _, _, _, _ => none)
      | e :: rest2 =>
        (match unescChar e with
         | some u => (parseStrBody rest2).map (fun p => (u :: p.1, p.2))
         | none => none)
      | [] => none
    else if c.toNat < 32 then none
    else (parseStrBody rest).map (fun p => (c :: p.1, p.2))

/-- Take the maximal run of decimal digits. -/
def takeDigits : List Char → List Char × List Char
  | [] => ([], [])
  | c :: r =>
    if c.isDigit then
      let p := takeDigits r
      (c :: p.1, p.2)
    else ([], c :: r)

/-- Numeric value of a digit run. -/
def digitsVal (ds : List Char) : Nat := ds.foldl (fun a c => a * 10 + (c.toNat - 48)) 0

/-- Parse the optional exponent part of a JSON number and finish. -/
def parseExpTail (v : ℚ) (r : List Char) : Option (ℚ × List Char) :=
  let pSign : Bool × List Char :=
    if r.head? = some '+' then (false, r.tail)
    else if r.head? = some '-' then (true, r.tail)
    else (false, r)
  let pDig := takeDigits pSign.2
  if pDig.1 = [] then none
  else
    let e := digitsVal pDig.1
    some (if pSign.1 then v / (10 : ℚ) ^ e else v * (10 : ℚ) ^ e, pDig.2)

/-- Finish a JSON number: optional exponent. -/
def parseExpOpt (v : ℚ) (rest : List Char) : Option (ℚ × List Char) :=
  if rest.head? = some 'e' ∨ rest.head? = some 'E' then parseExpTail v rest.tail
  else some (v, rest)

/-- Parse a JSON number: `-?(0|[1-9][0-9]*)(\.[0-9]+)?([eE][+-]?[0-9]+)?`. -/
def parseNum (s : List Char) : Option (ℚ × List Char) :=
  let pSign : Bool × List Char :=
    if s.head? = some '-' then (true, s.tail) else (false, s)
  let pInt := takeDigits pSign.2
  if pInt.1 = [] then none
  else if 1 < pInt.1.length ∧ pInt.1.head? = some '0' then none
  else
    let ipart : ℚ := (digitsVal pInt.1 : ℚ)
    if pInt.2.head? = some '.' then
      let pFrac := takeDigits pInt.2.tail
      if pFrac.1 = [] then none
      else
        let v := ipart + (digitsVal pFrac.1 : ℚ) / ((10 : ℚ) ^ pFrac.1.length)
        parseExpOpt (if pSign.1 then -v else v) pFrac.2
    else parseExpOpt (if pSign.1 then -ipart else ipart) pInt.2

mutual
/-- Model of `JSON.parse`: parse one JSON value.  `fuel` bounds recursion
depth and loop iterations; the top level supplies `length + 1`, which always
suffices because every fuel decrement follows at least one consumed
character. -/
def parseJVal : Nat → List Char → Option (Json × List Char)
  | 0, _ => none
  | fuel + 1, s =>
    match skipJWs s with
    | [] => none
    | c :: rest =>
      if c = '"' then (parseStrBody rest).map (fun p => (Json.str p.1, p.2))
      else if c = '{' then
        let r2 := skipJWs rest
        if r2.head? = some '}' then some (Json.obj [], r2.tail)
        else (parseMembers fuel r2).map (fun p => (Json.obj p.1, p.2))
      else if c = '[' then
        let r2 := skipJWs rest
        if r2.head? = some ']' then some (Json.arr [], r2.tail)
        else (parseElems fuel r2).map (fun p => (Json.arr p.1, p.2))
      else if c = 't' then
        match rest with
        | 'r' :: 'u' :: 'e' :: r2 => some (Json.bool true, r2)
        | _ => none
      else if c = 'f' then
        match rest with
        | 'a' :: 'l' :: 's' :: 'e' :: r2 => some (Json.bool false, r2)
        | _ => none
      else if c = 'n' then
        match rest with
        | 'u' :: 'l' :: 'l' :: r2 => some (Json.null, r2)
        | _ => none
      else (parseNum (c :: rest)).map (fun p => (Json.num p.1, p.2))

/-- Parse the elements of a non-empty JSON array (after `[`). -/
def parseElems : Nat → List Char → Option (List Json × List Char)
  | 0, _ => none
  | fuel + 1, s =>
    match parseJVal fuel s with
    | none => none
    | some (v, r) =>
      let r2 := skipJWs r
      if r2.head? = some ',' then (parseElems fuel r2.tail).map (fun p => (v :: p.1, p.2))
      else if r2.head? = some ']' then some ([v], r2.tail)
      else none

/-- Parse the members of a non-empty JSON object (after `{`). -/
def parseMembers : Nat → List Char → Option (List (List Char × Json) × List Char)
  | 0, _ => none
  | fuel + 1, s =>
    match skipJWs s with
    | '"' :: r =>
      (match parseStrBody r with
       | none => none
       | some (k, r1) =>
         let r2 := skipJWs r1
         if r2.head? = some ':' then
           match parseJVal fuel r2.tail with
           | none => none
           | some (v, r3) =>
             let r4 := skipJWs r3
             if r4.head? = some ',' then
               (parseMembers fuel r4.tail).map (fun p => ((k, v) :: p.1, p.2))
             else if r4.head? = some '}' then some ([(k, v)], r4.tail)
             else none
         else none)
    | _ => none
end

/-- Model of `JSON.parse(line)`: the whole input must be one JSON value. -/
def parseJson (s : List Char) : Option Json :=
  match parseJVal (s.length + 1) s with
  | some (j, rest) => if skipJWs rest = [] then some j else none
  | none => none

/-- Split a list at every occurrence of a separator character, like JS
`String.prototype.split` with a one-character string separator
(`"".split(x)` is `[""]`). -/
def splitOnChar (sep : Char) : List Char → List (List Char)
  | [] => [[]]
  | c :: r =>
    if c = sep then [] :: splitOnChar sep r
    else
      match splitOnChar sep r with
      | [] => [[c]]
      | h :: t => (c :: h) :: t

/-- Model of `String.prototype.trim` (strips the `\s` class at both ends). -/
def jsTrim (s : List Char) : List Char :=
  ((s.dropWhile isWsChar).reverse.dropWhile isWsChar).reverse

/-- Model of `file.split('/').pop()!` from `reindex`. -/
def lastSeg (s : List Char) : List Char := (splitOnChar '/' s).getLastD []

/-- The record `addToIndex` serializes:
`JSON.stringify({filename, mimeType, width, height, keywords})`. -/
structure ImageRecord where
  filename : List Char
  mimeType : List Char
  width : Nat
  height : Nat
  keywords : List (List Char)

/-- The JSON object literal built in `addToIndex`, members in source order. -/
def recordToJson (r : ImageRecord) : Json :=
  Json.obj [("filename".data, Json.str r.filename),
            ("mimeType".data, Json.str r.mimeType),
            ("width".data, Json.num r.width),
            ("height".data, Json.num r.height),
            ("keywords".data, Json.arr (r.keywords.map Json.str))]

/-- The single line `addToIndex` appends (without its trailing newline). -/
def recordLine (r : ImageRecord) : List Char := stringifyJson (recordToJson r)

/-- Index-file content after appending each record in order via `addToIndex`
(each append writes `JSON.stringify(entry) + "\n"`). -/
def appendAll (rs : List ImageRecord) : List Char :=
  (rs.map (fun r => recordLine r ++ ['\n'])).flatten

/-- One successfully parsed index line as the search loop keeps it: the raw
parsed JSON (later spread into the result) and its `keywords` array.  The
loop's `entry.keywords.join(" ")` throws unless `keywords` is an array, and
the `catch` turns that into a skipped line. -/
structure IndexEntry where
  raw : Json
  keywords : List Json

/-- Parse one index line as the search loop does. -/
def parseEntryLine (line : List Char) : Option IndexEntry :=
  match parseJson line with
  | none => none
  | some j =>
    match objField j "keywords".data with
    | some (Json.arr xs) => some ⟨j, xs⟩
    | _ => none

/-- A scored entry `{...entry, score}`. -/
structure ScoredEntry where
  raw : Json
  keywords : List Json
  score : ℚ

/-- The search warning for an unparsable line. -/
def parseWarning (line : List Char) : List Char :=
  "Failed to parse index line: ".data ++ line

/-- The loop over index lines: parse, score, keep strictly positive scores,
collect one warning per unparsable line. -/
def processLines (query : List Char) : List (List Char) → List ScoredEntry × List (List Char)
  | [] => ([], [])
  | line :: rest =>
    let p := processLines query rest
    match parseEntryLine line with
    | some e =>
      let score := similarity query (jsJoinElems " ".data e.keywords)
      if 0 < score then (⟨e.raw, e.keywords, score⟩ :: p.1, p.2) else p
    | none => (p.1, parseWarning line :: p.2)

/-- One returned search result. -/
structure SearchResult where
  filename : Option Json
  path : List Char
  score : ℚ
  mimeType : Option Json
  width : Option Json
  height : Option Json
  keywords : List Json

/-- The final mapping over the truncated result list. -/
def mkResult (targetDir : List Char) (r : ScoredEntry) : SearchResult :=
  { filename := objField r.raw "filename".data
    path := targetDir ++ '/' :: jsInterp (objField r.raw "filename".data)
    score := r.score
    mimeType := objField r.raw "mimeType".data
    width := objField r.raw "width".data
    height := objField r.raw "height".data
    keywords := r.keywords }

/-- Output of a successful search. -/
structure SearchOut where
  results : List SearchResult
  warnings : List (List Char)

/-- The search pipeline applied to the index file's content (after the
missing-index guard): split into lines, process, sort by score descending,
truncate to the limit (default 10), map to result records. -/
def searchBody (targetDir query : List Char) (limit : Option Nat)
    (content : List Char) : SearchOut :=
  let lines := splitOnChar '\n' (jsTrim content)
  let p := processLines query lines
  let sorted := p.1.mergeSort (fun a b => decide (b.score ≤ a.score))
  let top := sorted.take (limit.getD 10)
  { results := top.map (mkResult targetDir), warnings := p.2 }

/-- The distinct missing-index error message thrown by the search tool. -/
def noIndexMsg (targetDir : List Char) : List Char :=
  "No index found at ".data ++ targetDir ++
    "/image_index.json. Run /image reindex first.".data

/-- The search tool `execute`: `none` models a missing index file (the JS
falsy check `!indexContent` also treats empty content as missing), anything
else runs the pipeline. -/
def searchExecute (targetDir query : List Char) (limit : Option Nat)
    (indexContent : Option (List Char)) : Except (List Char) SearchOut :=
  match indexContent with
  | none => .error (noIndexMsg targetDir)
  | some content =>
    if content = [] then .error (noIndexMsg targetDir)
    else .ok (searchBody targetDir query limit content)

/-- The metadata fields `reindex` reads from the EXIF collaborator. -/
structure ExifMeta where
  MIMEType : Option (List Char)
  ImageWidth : Option Nat
  ImageHeight : Option Nat
  Keywords : Option (List (List Char))

/-- JS `a || b` for strings: the default also replaces the empty string. -/
def jsOrStr (v : Option (List Char)) (d : List Char) : List Char :=
  match v with
  | none => d
  | some s => if s = [] then d else s

/-- The record built for one successfully read file during reindex. -/
def reindexRecord (file : List Char) (m : ExifMeta) : ImageRecord :=
  { filename := lastSeg file
    mimeType := jsOrStr m.MIMEType "image/jpeg".data
    width := m.ImageWidth.getD 0
    height := m.ImageHeight.getD 0
    keywords := m.Keywords.getD [] }

/-- Outcome of `reindex`: file content written to the index path, the
serialized entries, warning and info lines, and the return value of the
method — whose TS signature is `Promise<void>`. -/
structure ReindexOutcome where
  written : List Char
  entries : List (List Char)
  warnings : List (List Char)
  infos : List (List Char)
  retVal : Unit

/-- The reindex warning for one unreadable file. -/
def reindexWarning (file err : List Char) : List Char :=
  "Failed to read metadata for ".data ++ file ++ ": ".data ++ err

/-- The per-file loop of `reindex`: a metadata read failure warns and skips
the file, a success appends one serialized entry. -/
def reindexLoop (readMeta : List Char → Except (List Char) ExifMeta) :
    List (List Char) → List (List Char) × List (List Char)
  | [] => ([], [])
  | file :: rest =>
    let p := reindexLoop readMeta rest
    match readMeta file with
    | .ok m => (recordLine (reindexRecord file m) :: p.1, p.2)
    | .error e => (p.1, reindexWarning file e :: p.2)

/-- `ImageGenerationService.reindex`: `files` is the glob result for
`<directory>/*.{jpg,jpeg,png,webp}` and `readMeta` the EXIF collaborator.
The method writes `entries.join("\n") + "\n"`, logs, and returns void. -/
def reindex (directory : List Char) (files : List (List Char))
    (readMeta : List Char → Except (List Char) ExifMeta) : ReindexOutcome :=
  let p := reindexLoop readMeta files
  { written := (List.intercalate "\n".data p.1) ++ "\n".data
    entries := p.1
    warnings := p.2
    infos := ["Reindexing images in ".data ++ directory ++ "...".data,
              "Reindexed ".data ++ natDigits p.1.length ++ " images".data]
    retVal := () }

/-- The size/width/height produced by the generate tool's aspect-ratio
switch; `size` is passed to the synthesis collaborator's `generateImage` and
`width`/`height` go into the index record. -/
structure GenSizing where
  size : List Char
  width : Nat
  height : Nat
deriving DecidableEq

/-- The `switch (aspectRatio)` of the generate tool, including its
`default` branch. -/
def aspectSizing (aspectRatio : List Char) : GenSizing :=
  if aspectRatio = "square".data then ⟨"1024x1024".data, 1024, 1024⟩
  else if aspectRatio = "tall".data then ⟨"1024x1536".data, 1024, 1536⟩
  else if aspectRatio = "wide".data then ⟨"1536x1024".data, 1536, 1024⟩
  else ⟨"1024x1024".data, 1024, 1024⟩

/-- The destructuring default `aspectRatio = "square"` of the tool input. -/
def genSizing (aspectRatio : Option (List Char)) : GenSizing :=
  aspectSizing (aspectRatio.getD "square".data)

theorem jsIncludes_append_left (xs ys n : List Char) (h : jsIncludes ys n = true) :
    jsIncludes (xs ++ ys) n = true := by
  induction xs with
  | nil => simpa using h
  | cons x rest ih =>
      show jsIncludes (x :: (rest ++ ys)) n = true
      unfold jsIncludes
      rw [Bool.or_eq_true]
      exact Or.inr ih

/-- C8: the generation tool maps aspectRatio square → 1024×1024,
tall → 1024×1536, wide → 1536×1024, and any unrecognized value to square's
dimensions without raising an error (the switch's default branch, a total
function); moreover the size string passed to the synthesis collaborator is
always exactly "<width>x<height>" for the same dimensions that are recorded. -/
theorem aspect_ratio_mapping :
    genSizing (some "square".data) = ⟨"1024x1024".data, 1024, 1024⟩ ∧
    genSizing (some "tall".data) = ⟨"1024x1536".data, 1024, 1536⟩ ∧
    genSizing (some "wide".data) = ⟨"1536x1024".data, 1536, 1024⟩ ∧
    genSizing none = ⟨"1024x1024".data, 1024, 1024⟩ ∧
    (∀ s : List Char, s ≠ "square".data → s ≠ "tall".data → s ≠ "wide".data →
      aspectSizing s = ⟨"1024x1024".data, 1024, 1024⟩) ∧
    (∀ s : List Char,
      (aspectSizing s).size =
        natDigits (aspectSizing s).width ++ 'x' :: natDigits (aspectSizing s).height) := by
  refine ⟨by decide, by decide, by decide, by decide, ?_, ?_⟩
  · intro s h1 h2 h3
    unfold aspectSizing
    rw [if_neg h1, if_neg h2, if_neg h3]
  · intro s
    unfold aspectSizing
    by_cases h1 : s = "square".data
    · rw [if_pos h1]; decide
    · rw [if_neg h1]
      by_cases h2 : s = "tall".data
      · rw [if_pos h2]; decide
      · rw [if_neg h2]
        by_cases h3 : s = "wide".data
        · rw [if_pos h3]; decide
        · rw [if_neg h3]; decide

/-- Witness for C8's unrecognized-value clause at a concrete input. -/
theorem aspect_ratio_mapping_witness :
    aspectSizing "banana".data = ⟨"1024x1024".data, 1024, 1024⟩ :=
  aspect_ratio_mapping.2.2.2.2.1 "banana".data (by decide) (by decide) (by decide)

/-- C5: when the index file for the configured output directory does not
exist, the search fails with the distinct no-index error — its message names
the missing index path and instructs the user to run reindex — and no
results are returned (the operation never yields an ok value). -/
theorem search_missing_index :
    ∀ (targetDir query : List Char) (limit : Option Nat),
      searchExecute targetDir query limit none = .error (noIndexMsg targetDir) ∧
      jsIncludes (noIndexMsg targetDir) "Run /image reindex first.".data = true ∧
      ∀ out, searchExecute targetDir query limit none ≠ .ok out := by
  intro d q l
  refine ⟨rfl, ?_, fun out h => by cases h⟩
  unfold noIndexMsg
  rw [List.append_assoc]
  exact jsIncludes_append_left _ _ _
    (jsIncludes_append_left _ _ _ (by decide))

/-- C3 counterexample: `reindex` returns void (`Promise<void>`), so its
returned value is identical for runs that write different numbers of
records — the caller cannot obtain the written count from the return value. -/
theorem reindex_returns_void_cex :
    (reindex "d".data ["d/a.png".data]
        (fun _ => .ok ⟨some "image/png".data, some 10, some 20, some []⟩)).retVal
      = (reindex "d".data ["d/a.png".data, "d/b.png".data]
        (fun _ => .ok ⟨some "image/png".data, some 10, some 20, some []⟩)).retVal ∧
    (reindex "d".data ["d/a.png".data]
        (fun _ => .ok ⟨some "image/png".data, some 10, some 20, some []⟩)).entries.length
      = 1 ∧
    (reindex "d".data ["d/a.png".data, "d/b.png".data]
        (fun _ => .ok ⟨some "image/png".data, some 10, some 20, some []⟩)).entries.length
      = 2 :=
  ⟨rfl, rfl, rfl⟩

/-- C3 (amended): `reindex` returns no value; it writes one record per file
whose metadata read succeeded and itself reports that count to the user in
the info line "Reindexed <count> images" — the caller receives nothing to
report. -/
theorem reindex_reports_count :
    ∀ (dir : List Char) (files : List (List Char))
      (readMeta : List Char → Except (List Char) ExifMeta),
      (reindex dir files readMeta).retVal = () ∧
      (reindex dir files readMeta).infos =
        ["Reindexing images in ".data ++ dir ++ "...".data,
         "Reindexed ".data ++ natDigits (reindex dir files readMeta).entries.length
           ++ " images".data] :=
  fun _ _ _ => ⟨rfl, rfl⟩

/-- Did the metadata read succeed? -/
def metaOk : Except (List Char) ExifMeta → Bool
  | .ok _ => true
  | .error _ => false

theorem metaOk_ok (m : ExifMeta) : metaOk (.ok m) = true := rfl

theorem metaOk_error (e : List Char) : metaOk (.error e) = false := rfl

theorem countP_metaOk_split (rm : List Char → Except (List Char) ExifMeta)
    (files : List (List Char)) :
    files.length = files.countP (fun f => metaOk (rm f))
      + files.countP (fun f => !metaOk (rm f)) := by
  induction files with
  | nil => rfl
  | cons f rest ih =>
      simp only [List.countP_cons, List.length_cons]
      cases metaOk (rm f) <;> simp <;> omega

theorem reindexLoop_spec (rm : List Char → Except (List Char) ExifMeta)
    (files : List (List Char)) :
    (reindexLoop rm files).1 =
      files.filterMap (fun f =>
        match rm f with
        | .ok m => some (recordLine (reindexRecord f m))
        | .error _ => none) ∧
    (reindexLoop rm files).2 =
      files.filterMap (fun f =>
        match rm f with
        | .ok _ => none
        | .error e => some (reindexWarning f e)) ∧
    (reindexLoop rm files).1.length = files.countP (fun f => metaOk (rm f)) ∧
    (reindexLoop rm files).2.length = files.countP (fun f => !metaOk (rm f)) := by
  induction files with
  | nil => exact ⟨rfl, rfl, rfl, rfl⟩
  | cons f rest ih =>
      obtain ⟨ih1, ih2, ih3, ih4⟩ := ih
      unfold reindexLoop
      cases h : rm f with
      | ok m =>
          simp [h, ih1, ih2, ih3, ih4, List.filterMap_cons, List.countP_cons,
            metaOk_ok, metaOk_error]
          exact ⟨ih1 ▸ ih3, ih2 ▸ ih4⟩
      | error e =>
          simp [h, ih1, ih2, ih3, ih4, List.filterMap_cons, List.countP_cons,
            metaOk_ok, metaOk_error]
          exact ⟨ih1 ▸ ih3, ih2 ▸ ih4⟩

/-- C6: during reindex, every file whose metadata read fails yields exactly
one warning naming the file and the error and contributes no record, every
successfully read file contributes exactly one record, and the operation
completes, writing the joined entries: with `n` files of which `k` are
unreadable, the index receives `n − k` records and `k` warnings. -/
theorem reindex_skips_unreadable :
    ∀ (dir : List Char) (files : List (List Char))
      (readMeta : List Char → Except (List Char) ExifMeta),
      (reindex dir files readMeta).entries =
        files.filterMap (fun f =>
          match readMeta f with
          | .ok m => some (recordLine (reindexRecord f m))
          | .error _ => none) ∧
      (reindex dir files readMeta).warnings =
        files.filterMap (fun f =>
          match readMeta f with
          | .ok _ => none
          | .error e => some (reindexWarning f e)) ∧
      (reindex dir files readMeta).warnings.length
        = files.countP (fun f => !metaOk (readMeta f)) ∧
      (reindex dir files readMeta).entries.length
        = files.length - files.countP (fun f => !metaOk (readMeta f)) ∧
      (reindex dir files readMeta).written =
        List.intercalate "\n".data (reindex dir files readMeta).entries ++ "\n".data := by
  intro dir files rm
  obtain ⟨h1, h2, h3, h4⟩ := reindexLoop_spec rm files
  refine ⟨h1, h2, h4, ?_, rfl⟩
  show (reindexLoop rm files).1.length = _
  rw [h3]
  have hsplit := countP_metaOk_split rm files
  omega

theorem processLines_spec (q : List Char) (lines : List (List Char)) :
    (processLines q lines).1 =
      (lines.filterMap parseEntryLine).filterMap (fun e =>
        if 0 < similarity q (jsJoinElems " ".data e.keywords) then
          some ⟨e.raw, e.keywords, similarity q (jsJoinElems " ".data e.keywords)⟩
        else none) ∧
    (processLines q lines).2 =
      (lines.filter (fun l => (parseEntryLine l).isNone)).map parseWarning := by
  induction lines with
  | nil => exact ⟨rfl, rfl⟩
  | cons line rest ih =>
      obtain ⟨ih1, ih2⟩ := ih
      unfold processLines
      cases hp : parseEntryLine line with
      | some e =>
          constructor
          · by_cases hs : 0 < similarity q (jsJoinElems " ".data e.keywords)
            · simp [hp, List.filterMap_cons, ih1, hs]
            · simp [hp, List.filterMap_cons, ih1, hs]
          · by_cases hs : 0 < similarity q (jsJoinElems " ".data e.keywords)
            · simp [hp, List.filter_cons, ih2, hs]
            · simp [hp, List.filter_cons, ih2, hs]
      | none =>
          constructor
          · simp [hp, List.filterMap_cons, ih1]
          · simp [hp, List.filter_cons, ih2]

theorem processLines_pos (q : List Char) (lines : List (List Char)) :
    ∀ e ∈ (processLines q lines).1, 0 < e.score := by
  intro e he
  rw [(processLines_spec q lines).1] at he
  obtain ⟨a, _, ha⟩ := List.mem_filterMap.mp he
  by_cases hs : 0 < similarity q (jsJoinElems " ".data a.keywords)
  · rw [if_pos hs] at ha
    cases ha
    exact hs
  · rw [if_neg hs] at ha
    cases ha

/-- C4: for every index content, query and limit, a successful search
returns a result list in which no record has score exactly 0, sorted by
score in descending order, of length at most the given limit (10 when the
limit is absent), and in which every entry's path is the configured output
directory joined by "/" with the entry's (interpolated) filename. -/
theorem search_results_shape :
    ∀ (targetDir query content : List Char) (limit : Option Nat) (out : SearchOut),
      searchExecute targetDir query limit (some content) = .ok out →
      (∀ r ∈ out.results, r.score ≠ 0) ∧
      out.results.Pairwise (fun a b => b.score ≤ a.score) ∧
      out.results.length ≤ limit.getD 10 ∧
      (∀ r ∈ out.results, r.path = targetDir ++ '/' :: jsInterp r.filename) := by
  intro d q content limit out h
  have h' : (if content = [] then (Except.error (noIndexMsg d) : Except (List Char) SearchOut)
      else .ok (searchBody d q limit content)) = .ok out := h
  clear h
  by_cases hc : content = []
  · rw [if_pos hc] at h'; cases h'
  · rw [if_neg hc] at h'
    injection h' with h'
    subst h'
    show
      (∀ r ∈ (searchBody d q limit content).results, r.score ≠ 0) ∧
      (searchBody d q limit content).results.Pairwise (fun a b => b.score ≤ a.score) ∧
      (searchBody d q limit content).results.length ≤ limit.getD 10 ∧
      (∀ r ∈ (searchBody d q limit content).results,
        r.path = d ++ '/' :: jsInterp r.filename)
    unfold searchBody
    have hposP := processLines_pos q (splitOnChar '\n' (jsTrim content))
    have hperm := List.mergeSort_perm
      (processLines q (splitOnChar '\n' (jsTrim content))).1
      (fun a b => decide (b.score ≤ a.score))
    have hmem_top : ∀ e, e ∈ ((processLines q (splitOnChar '\n' (jsTrim content))).1.mergeSort
        (fun a b => decide (b.score ≤ a.score))).take (limit.getD 10) → 0 < e.score := by
      intro e he
      exact hposP e (hperm.mem_iff.mp (List.take_subset _ _ he))
    refine ⟨?_, ?_, ?_, ?_⟩
    · intro r hr
      obtain ⟨e, he, rfl⟩ := List.mem_map.mp hr
      exact ne_of_gt (hmem_top e he)
    · have hsorted : ((processLines q (splitOnChar '\n' (jsTrim content))).1.mergeSort
          (fun a b => decide (b.score ≤ a.score))).Pairwise
            (fun a b => decide (b.score ≤ a.score) = true) :=
        List.sorted_mergeSort
          (fun a b c hab hbc => by
            rw [decide_eq_true_iff] at *
            exact le_trans hbc hab)
          (fun a b => by
            rcases le_total b.score a.score with hle | hle
            · simp [hle]
            · simp [hle])
          _
      have htake := hsorted.sublist (List.take_sublist (limit.getD 10) _)
      rw [List.pairwise_map]
      exact htake.imp (fun hab => by
        rw [decide_eq_true_iff] at hab
        exact hab)
    · rw [List.length_map, List.length_take]
      exact Nat.min_le_left _ _
    · intro r hr
      obtain ⟨e, _, rfl⟩ := List.mem_map.mp hr
      rfl

/-- Witness for C4 at a concrete search: one well-formed index line,
matching query, no explicit limit. -/
theorem search_results_shape_witness :
    (∀ r ∈ (searchBody "dir".data "a".data none
        "\x7b\"keywords\":[\"a\"]\x7d".data).results, r.score ≠ 0) ∧
    (searchBody "dir".data "a".data none
        "\x7b\"keywords\":[\"a\"]\x7d".data).results.Pairwise
      (fun a b => b.score ≤ a.score) ∧
    (searchBody "dir".data "a".data none
        "\x7b\"keywords\":[\"a\"]\x7d".data).results.length ≤ (none : Option Nat).getD 10 ∧
    (∀ r ∈ (searchBody "dir".data "a".data none
        "\x7b\"keywords\":[\"a\"]\x7d".data).results,
      r.path = "dir".data ++ '/' :: jsInterp r.filename) :=
  search_results_shape "dir".data "a".data "\x7b\"keywords\":[\"a\"]\x7d".data none _ rfl

/-- C7: the search tolerates malformed index lines: for any index content
the operation completes successfully, every line that fails to parse as
JSON (or lacks a keywords array) contributes exactly one warning naming the
line, in line order, and no such line contributes to the results — every
result record stems from a line that parsed successfully. -/
theorem search_skips_malformed_lines :
    ∀ (targetDir query content : List Char) (limit : Option Nat),
      content ≠ [] →
      searchExecute targetDir query limit (some content)
        = .ok (searchBody targetDir query limit content) ∧
      (searchBody targetDir query limit content).warnings =
        ((splitOnChar '\n' (jsTrim content)).filter
          (fun l => (parseEntryLine l).isNone)).map parseWarning ∧
      (∀ r ∈ (searchBody targetDir query limit content).results,
        ∃ line ∈ splitOnChar '\n' (jsTrim content), ∃ ent : IndexEntry,
          parseEntryLine line = some ent ∧
          r = mkResult targetDir ⟨ent.raw, ent.keywords,
                similarity query (jsJoinElems " ".data ent.keywords)⟩) := by
  intro d q content limit hc
  refine ⟨?_, ?_, ?_⟩
  · show (if content = [] then (Except.error (noIndexMsg d) : Except (List Char) SearchOut)
        else .ok (searchBody d q limit content)) = .ok (searchBody d q limit content)
    rw [if_neg hc]
  · exact (processLines_spec q (splitOnChar '\n' (jsTrim content))).2
  · intro r hr
    obtain ⟨e, he, rfl⟩ := List.mem_map.mp hr
    have he' : e ∈ (processLines q (splitOnChar '\n' (jsTrim content))).1 :=
      (List.mergeSort_perm _ _).mem_iff.mp (List.take_subset _ _ he)
    rw [(processLines_spec q _).1] at he'
    obtain ⟨a, ha, haeq⟩ := List.mem_filterMap.mp he'
    obtain ⟨line, hline, hpl⟩ := List.mem_filterMap.mp ha
    by_cases hs : 0 < similarity q (jsJoinElems " ".data a.keywords)
    · rw [if_pos hs] at haeq
      injection haeq with haeq
      subst haeq
      exact ⟨line, hline, a, hpl, rfl⟩
    · rw [if_neg hs] at haeq
      cases haeq

/-- Witness for C7: a single malformed line yields an ok result, exactly its
one warning, and no results to attribute. -/
theorem search_skips_malformed_lines_witness :
    searchExecute "dir".data "q".data none (some "x".data)
      = .ok (searchBody "dir".data "q".data none "x".data) ∧
    (searchBody "dir".data "q".data none "x".data).warnings =
      ((splitOnChar '\n' (jsTrim "x".data)).filter
        (fun l => (parseEntryLine l).isNone)).map parseWarning ∧
    (∀ r ∈ (searchBody "dir".data "q".data none "x".data).results,
      ∃ line ∈ splitOnChar '\n' (jsTrim "x".data), ∃ ent : IndexEntry,
        parseEntryLine line = some ent ∧
        r = mkResult "dir".data ⟨ent.raw, ent.keywords,
              similarity "q".data (jsJoinElems " ".data ent.keywords)⟩) :=
  search_skips_malformed_lines "dir".data "q".data "x".data none (by decide)

/-- Witness for C5 at a concrete directory and query. -/
theorem search_missing_index_witness :
    searchExecute "dir".data "q".data none none = .error (noIndexMsg "dir".data) ∧
    jsIncludes (noIndexMsg "dir".data) "Run /image reindex first.".data = true :=
  ⟨(search_missing_index "dir".data "q".data none).1,
   (search_missing_index "dir".data "q".data none).2.1⟩

theorem digitChar_toNat : ∀ m : Nat, m < 10 → (digitChar m).toNat = 48 + m := by decide

theorem digitChar_isDigit : ∀ m : Nat, m < 10 → (digitChar m).isDigit = true := by decide

theorem digitChar_ne_zero : ∀ m : Nat, 1 ≤ m → m < 10 → digitChar m ≠ '0' := by decide

theorem natDigitsRevAux_digits : ∀ fuel n, n < fuel →
    ∀ c ∈ natDigitsRevAux n fuel, c.isDigit = true := by
  intro fuel
  induction fuel with
  | zero => intro n h; omega
  | succ f ih =>
      intro n h c hc
      rw [natDigitsRevAux] at hc
      by_cases h10 : n < 10
      · rw [if_pos h10] at hc
        simp only [List.mem_singleton] at hc
        subst hc
        exact digitChar_isDigit n h10
      · rw [if_neg h10] at hc
        rcases List.mem_cons.mp hc with hc | hc
        · subst hc
          exact digitChar_isDigit _ (Nat.mod_lt _ (by omega))
        · have hdiv := Nat.div_lt_self (show 0 < n by omega) (show 1 < 10 by omega)
          exact ih (n / 10) (by omega) c hc

theorem natDigitsRevAux_ne_nil : ∀ fuel n, n < fuel → natDigitsRevAux n fuel ≠ [] := by
  intro fuel n h
  cases fuel with
  | zero => omega
  | succ f =>
      rw [natDigitsRevAux]
      by_cases h10 : n < 10
      · rw [if_pos h10]; simp
      · rw [if_neg h10]; simp

theorem foldl_natDigitsRevAux : ∀ fuel n acc, n < fuel →
    (natDigitsRevAux n fuel).reverse.foldl (fun a c => a * 10 + (c.toNat - 48)) acc
      = acc * 10 ^ (natDigitsRevAux n fuel).length + n := by
  intro fuel
  induction fuel with
  | zero => intro n acc h; omega
  | succ f ih =>
      intro n acc h
      by_cases h10 : n < 10
      · rw [natDigitsRevAux, if_pos h10]
        simp [digitChar_toNat n h10]
      · rw [natDigitsRevAux, if_neg h10]
        have hdivlt := Nat.div_lt_self (show 0 < n by omega) (show 1 < 10 by omega)
        have hdiv : n / 10 < f := by omega
        rw [List.reverse_cons, List.foldl_append, ih (n / 10) acc hdiv]
        simp only [List.foldl_cons, List.foldl_nil, List.length_cons]
        rw [digitChar_toNat (n % 10) (Nat.mod_lt _ (by omega))]
        rw [Nat.add_mul, pow_succ, ← Nat.mul_assoc]
        omega

theorem digitsVal_natDigits (n : Nat) : digitsVal (natDigits n) = n := by
  unfold digitsVal natDigits
  rw [foldl_natDigitsRevAux (n + 1) n 0 (by omega)]
  simp

theorem natDigits_ne_nil (n : Nat) : natDigits n ≠ [] := by
  unfold natDigits
  simp only [ne_eq, List.reverse_eq_nil_iff]
  exact natDigitsRevAux_ne_nil (n + 1) n (by omega)

theorem natDigits_digits (n : Nat) : ∀ c ∈ natDigits n, c.isDigit = true := by
  intro c hc
  exact natDigitsRevAux_digits (n + 1) n (by omega) c (List.mem_reverse.mp hc)

theorem natDigitsRevAux_getLast : ∀ fuel n, n < fuel → 1 ≤ n →
    ∀ c, (natDigitsRevAux n fuel).getLast? = some c → c ≠ '0' := by
  intro fuel
  induction fuel with
  | zero => intro n h; omega
  | succ f ih =>
      intro n h h1 c hc
      rw [natDigitsRevAux] at hc
      by_cases h10 : n < 10
      · rw [if_pos h10] at hc
        simp only [List.getLast?_singleton, Option.some.injEq] at hc
        subst hc
        exact digitChar_ne_zero n h1 h10
      · rw [if_neg h10] at hc
        have hdivlt := Nat.div_lt_self (show 0 < n by omega) (show 1 < 10 by omega)
        have hdiv : n / 10 < f := by omega
        have hnn := natDigitsRevAux_ne_nil f (n / 10) hdiv
        obtain ⟨x, xs, hx⟩ := List.exists_cons_of_ne_nil hnn
        rw [hx] at hc
        rw [List.getLast?_cons_cons] at hc
        refine ih (n / 10) hdiv (by omega) c ?_
        rw [hx]
        exact hc

theorem natDigits_no_leading_zero (n : Nat) :
    ¬(1 < (natDigits n).length ∧ (natDigits n).head? = some '0') := by
  rintro ⟨hlen, hhead⟩
  by_cases h0 : n = 0
  · subst h0
    simp [natDigits, natDigitsRevAux] at hlen
  · unfold natDigits at hhead
    rw [List.head?_reverse] at hhead
    exact natDigitsRevAux_getLast (n + 1) n (by omega) (by omega) '0' hhead rfl

theorem takeDigits_append (ds rest : List Char) (hds : ∀ c ∈ ds, c.isDigit = true)
    (hrest : ∀ c, rest.head? = some c → c.isDigit = false) :
    takeDigits (ds ++ rest) = (ds, rest) := by
  induction ds with
  | nil =>
      cases rest with
      | nil => rfl
      | cons c t =>
          simp only [List.nil_append]
          unfold takeDigits
          rw [if_neg]
          rw [hrest c rfl]
          simp
  | cons d dt ih =>
      have hd := hds d (List.mem_cons_self d dt)
      simp only [List.cons_append]
      unfold takeDigits
      rw [if_pos hd]
      rw [ih (fun c hc => hds c (List.mem_cons_of_mem d hc))]

theorem parseNum_natDigits (n : Nat) (rest : List Char)
    (hrest : ∀ c, rest.head? = some c →
      c.isDigit = false ∧ c ≠ '.' ∧ c ≠ 'e' ∧ c ≠ 'E') :
    parseNum (natDigits n ++ rest) = some ((n : ℚ), rest) := by
  obtain ⟨d, dt, hd⟩ := List.exists_cons_of_ne_nil (natDigits_ne_nil n)
  have hddig : d.isDigit = true := by
    apply natDigits_digits n
    rw [hd]
    exact List.mem_cons_self d dt
  have htake := takeDigits_append (natDigits n) rest (natDigits_digits n)
    (fun c hc => (hrest c hc).1)
  have hhead : (natDigits n ++ rest).head? = some d := by rw [hd]; rfl
  have hneg : ¬((natDigits n ++ rest).head? = some '-') := by
    rw [hhead]
    intro hcon
    injection hcon with hcon
    subst hcon
    exact absurd hddig (by decide)
  have hdot : ¬(rest.head? = some '.') := by
    intro hcon
    exact absurd rfl (hrest '.' hcon).2.1
  have hexp : ¬(rest.head? = some 'e' ∨ rest.head? = some 'E') := by
    rintro (hcon | hcon)
    · exact absurd rfl (hrest 'e' hcon).2.2.1
    · exact absurd rfl (hrest 'E' hcon).2.2.2
  unfold parseNum
  rw [if_neg hneg]
  simp only [htake]
  rw [if_neg (natDigits_ne_nil n), if_neg (natDigits_no_leading_zero n), if_neg hdot]
  unfold parseExpOpt
  rw [if_neg hexp]
  simp [digitsVal_natDigits]

theorem hexVal_hexDigitChar : ∀ k : Nat, k < 16 → hexVal (hexDigitChar k) = some k := by
  decide

theorem parseStrBody_escBody : ∀ (s rest : List Char),
    parseStrBody (escBody s ++ '"' :: rest) = some (s, rest) := by
  intro s
  induction s with
  | nil =>
      intro rest
      show parseStrBody (escBody [] ++ '"' :: rest) = some ([], rest)
      rw [show escBody [] ++ '"' :: rest = '"' :: rest from rfl]
      rw [parseStrBody.eq_def]
      simp
  | cons c t ih =>
      intro rest
      have hesc : escBody (c :: t) = escChar c ++ escBody t := by
        simp [escBody]
      rw [hesc, List.append_assoc]
      unfold escChar
      by_cases h1 : c = '"'
      · subst h1
        rw [if_pos rfl]
        simp only [List.cons_append, List.nil_append]
        rw [parseStrBody.eq_def]
        simp [unescChar, ih rest]
      · rw [if_neg h1]
        by_cases h2 : c = '\\'
        · subst h2
          rw [if_pos rfl]
          simp only [List.cons_append, List.nil_append]
          rw [parseStrBody.eq_def]
          simp [unescChar, ih rest]
        · rw [if_neg h2]
          by_cases h3 : c.toNat = 8
          · rw [if_pos h3]
            have hc : Char.ofNat 8 = c := by rw [← h3]; exact Char.ofNat_toNat c
            simp only [List.cons_append, List.nil_append]
            rw [parseStrBody.eq_def]
            simp [unescChar, ih rest]
            rw [hc]
          · rw [if_neg h3]
            by_cases h4 : c.toNat = 9
            · rw [if_pos h4]
              have hc : Char.ofNat 9 = c := by rw [← h4]; exact Char.ofNat_toNat c
              simp only [List.cons_append, List.nil_append]
              rw [parseStrBody.eq_def]
              simp [unescChar, ih rest]
              rw [hc]
            · rw [if_neg h4]
              by_cases h5 : c.toNat = 10
              · rw [if_pos h5]
                have hc : Char.ofNat 10 = c := by rw [← h5]; exact Char.ofNat_toNat c
                simp only [List.cons_append, List.nil_append]
                rw [parseStrBody.eq_def]
                simp [unescChar, ih rest]
                rw [hc]
              · rw [if_neg h5]
                by_cases h6 : c.toNat = 12
                · rw [if_pos h6]
                  have hc : Char.ofNat 12 = c := by rw [← h6]; exact Char.ofNat_toNat c
                  simp only [List.cons_append, List.nil_append]
                  rw [parseStrBody.eq_def]
                  simp [unescChar, ih rest]
                  rw [hc]
                · rw [if_neg h6]
                  by_cases h7 : c.toNat = 13
                  · rw [if_pos h7]
                    have hc : Char.ofNat 13 = c := by rw [← h7]; exact Char.ofNat_toNat c
                    simp only [List.cons_append, List.nil_append]
                    rw [parseStrBody.eq_def]
                    simp [unescChar, ih rest]
                    rw [hc]
                  · rw [if_neg h7]
                    by_cases h8 : c.toNat < 32
                    · rw [if_pos h8]
                      have hx1 : hexVal (hexDigitChar (c.toNat / 16)) = some (c.toNat / 16) :=
                        hexVal_hexDigitChar _ (by omega)
                      have hx2 : hexVal (hexDigitChar (c.toNat % 16)) = some (c.toNat % 16) :=
                        hexVal_hexDigitChar _ (by omega)
                      have h0 : hexVal '0' = some 0 := by decide
                      simp only [List.cons_append, List.nil_append]
                      rw [parseStrBody.eq_def]
                      simp [h0, hx1, hx2, ih rest]
                      rw [show c.toNat / 16 * 16 + c.toNat % 16 = c.toNat from by omega,
                        Char.ofNat_toNat]
                    · rw [if_neg h8]
                      simp only [List.cons_append, List.nil_append]
                      show parseStrBody (c :: (escBody t ++ '"' :: rest)) = _
                      rw [parseStrBody.eq_def]
                      simp [h1, h2, h8, ih rest]

theorem skipJWs_cons_false (c : Char) (t : List Char) (h : isJWs c = false) :
    skipJWs (c :: t) = c :: t := by
  simp [skipJWs, List.dropWhile_cons, h]

theorem parseJVal_str (f : Nat) (s X : List Char) :
    parseJVal (f + 1) ('"' :: (escBody s ++ '"' :: X)) = some (Json.str s, X) := by
  rw [parseJVal]
  rw [skipJWs_cons_false _ _ (by decide)]
  simp [parseStrBody_escBody s X]


theorem parseJVal_num (f : Nat) (n : Nat) (X : List Char)
    (hX : ∀ c, X.head? = some c → c.isDigit = false ∧ c ≠ '.' ∧ c ≠ 'e' ∧ c ≠ 'E') :
    parseJVal (f + 1) (natDigits n ++ X) = some (Json.num (n : ℚ), X) := by
  obtain ⟨d, dt, hd⟩ := List.exists_cons_of_ne_nil (natDigits_ne_nil n)
  have hddig : d.isDigit = true := by
    apply natDigits_digits n
    rw [hd]
    exact List.mem_cons_self d dt
  have hne : ∀ x : Char, x.isDigit = false → d ≠ x := by
    intro x hx heq
    rw [heq] at hddig
    rw [hddig] at hx
    cases hx
  have hjws : isJWs d = false := by
    simp [isJWs, hne ' ' (by decide), hne '\t' (by decide), hne '\n' (by decide),
      hne '\r' (by decide)]
  rw [hd, List.cons_append, parseJVal]
  rw [skipJWs_cons_false _ _ hjws]
  dsimp only
  rw [if_neg (hne '"' (by decide)), if_neg (hne '{' (by decide)),
    if_neg (hne '[' (by decide)), if_neg (hne 't' (by decide)),
    if_neg (hne 'f' (by decide)), if_neg (hne 'n' (by decide))]
  rw [← List.cons_append, ← hd]
  rw [parseNum_natDigits n X hX]
  rfl

theorem parseElems_strs : ∀ (ks : List (List Char)) (f : Nat) (X : List Char),
    ks ≠ [] → ks.length ≤ f →
    parseElems (f + 1) (stringifyElems (ks.map Json.str) ++ ']' :: X)
      = some (ks.map Json.str, X) := by
  intro ks
  induction ks with
  | nil => intro f X h _; exact absurd rfl h
  | cons k kt ih =>
      intro f X _ hlen
      have hf1 : 1 ≤ f := by
        simp only [List.length_cons] at hlen
        omega
      obtain ⟨f', rfl⟩ : ∃ f', f = f' + 1 := ⟨f - 1, by omega⟩
      cases kt with
      | nil =>
          rw [parseElems]
          rw [show stringifyElems ([k].map Json.str) ++ ']' :: X
              = '"' :: (escBody k ++ '"' :: (']' :: X)) by simp [stringifyElems, stringifyJson]]
          rw [parseJVal_str f' k (']' :: X)]
          dsimp only
          rw [skipJWs_cons_false _ _ (by decide)]
          rfl
      | cons k2 kt2 =>
          rw [parseElems]
          rw [show stringifyElems ((k :: k2 :: kt2).map Json.str) ++ ']' :: X
              = '"' :: (escBody k ++ '"' ::
                  (',' :: (stringifyElems ((k2 :: kt2).map Json.str) ++ ']' :: X))) by
            simp [stringifyElems, stringifyJson]]
          rw [parseJVal_str f' k _]
          dsimp only
          rw [skipJWs_cons_false _ _ (by decide)]
          have hlen2 : (k2 :: kt2).length ≤ f' := by
            simp only [List.length_cons] at hlen ⊢
            omega
          show (parseElems (f' + 1)
              (stringifyElems ((k2 :: kt2).map Json.str) ++ ']' :: X)).map
                (fun p => (Json.str k :: p.1, p.2)) = _
          rw [ih f' X (by simp) hlen2]
          rfl

theorem parseJVal_strArr (ks : List (List Char)) (f : Nat) (X : List Char)
    (h : ks.length + 1 ≤ f) :
    parseJVal (f + 1) ('[' :: (stringifyElems (ks.map Json.str) ++ ']' :: X))
      = some (Json.arr (ks.map Json.str), X) := by
  obtain ⟨f', rfl⟩ : ∃ f', f = f' + 1 := ⟨f - 1, by omega⟩
  rw [parseJVal]
  rw [skipJWs_cons_false _ _ (by decide)]
  dsimp only
  rw [if_neg (show ¬('[' = '"') by decide), if_neg (show ¬('[' = '{') by decide),
    if_pos rfl]
  cases ks with
  | nil =>
      rw [show stringifyElems (([] : List (List Char)).map Json.str) ++ ']' :: X
          = ']' :: X from rfl]
      rw [skipJWs_cons_false _ _ (by decide)]
      rfl
  | cons k kt =>
      obtain ⟨Y, hY⟩ : ∃ Y, stringifyElems ((k :: kt).map Json.str) ++ ']' :: X
          = '"' :: Y := by
        cases kt <;> exact ⟨_, rfl⟩
      rw [hY, skipJWs_cons_false _ _ (by decide)]
      show (parseElems (f' + 1) ('"' :: Y)).map (fun p => (Json.arr p.1, p.2)) = _
      rw [← hY]
      have hlen : (k :: kt).length ≤ f' := by
        simp only [List.length_cons] at h ⊢
        omega
      rw [parseElems_strs (k :: kt) f' X (by simp) hlen]
      rfl

theorem parseMembers_quote (f : Nat) (Z : List Char) :
    parseMembers (f + 1) ('"' :: Z) =
      (match parseStrBody Z with
       | none => none
       | some (k, r1) =>
         if (skipJWs r1).head? = some ':' then
           match parseJVal f (skipJWs r1).tail with
           | none => none
           | some (v, r3) =>
             if (skipJWs r3).head? = some ',' then
               (parseMembers f (skipJWs r3).tail).map (fun p => ((k, v) :: p.1, p.2))
             else if (skipJWs r3).head? = some '}' then some ([(k, v)], (skipJWs r3).tail)
             else none
         else none) := by
  rw [parseMembers]
  rw [skipJWs_cons_false _ _ (by decide)]
  rfl

theorem parseMembers_cons (f : Nat) (key : List Char) (v : Json)
    (valChars after rest2 : List Char) (ms : List (List Char × Json))
    (hval : parseJVal f (valChars ++ ',' :: after) = some (v, ',' :: after))
    (hnext : parseMembers f after = some (ms, rest2)) :
    parseMembers (f + 1) ('"' :: (escBody key ++ '"' :: ':' :: (valChars ++ ',' :: after)))
      = some ((key, v) :: ms, rest2) := by
  rw [parseMembers_quote]
  rw [parseStrBody_escBody key (':' :: (valChars ++ ',' :: after))]
  dsimp only
  rw [skipJWs_cons_false _ _ (by decide)]
  rw [if_pos (show ((':' :: (valChars ++ ',' :: after)).head? = some ':') from rfl)]
  rw [show (':' :: (valChars ++ ',' :: after)).tail = valChars ++ ',' :: after from rfl]
  rw [hval]
  dsimp only
  rw [skipJWs_cons_false _ _ (by decide)]
  rw [if_pos (show (((',' :: after) : List Char).head? = some ',') from rfl)]
  rw [show ((',' :: after : List Char)).tail = after from rfl]
  rw [hnext]
  rfl

theorem parseMembers_last (f : Nat) (key : List Char) (v : Json)
    (valChars after : List Char)
    (hval : parseJVal f (valChars ++ '}' :: after) = some (v, '}' :: after)) :
    parseMembers (f + 1) ('"' :: (escBody key ++ '"' :: ':' :: (valChars ++ '}' :: after)))
      = some ([(key, v)], after) := by
  rw [parseMembers_quote]
  rw [parseStrBody_escBody key (':' :: (valChars ++ '}' :: after))]
  dsimp only
  rw [skipJWs_cons_false _ _ (by decide)]
  rw [if_pos (show ((':' :: (valChars ++ '}' :: after)).head? = some ':') from rfl)]
  rw [show (':' :: (valChars ++ '}' :: after)).tail = valChars ++ '}' :: after from rfl]
  rw [hval]
  dsimp only
  rw [skipJWs_cons_false _ _ (by decide)]
  rw [if_neg (show ¬((('}' :: after) : List Char).head? = some ',') by simp)]
  rw [if_pos (show ((('}' :: after) : List Char).head? = some '}') from rfl)]
  rfl

theorem numLit_natCast (n : ℕ) : numLit (n : ℚ) = natDigits n := by
  unfold numLit
  rw [Rat.den_natCast, if_pos rfl, Rat.num_natCast]
  unfold intDigits
  rw [if_neg (show ¬((n : ℤ) < 0) by omega), Int.natAbs_ofNat]

/-- The member list of the record object, in source order. -/
def recordMembers (r : ImageRecord) : List (List Char × Json) :=
  [("filename".data, Json.str r.filename),
   ("mimeType".data, Json.str r.mimeType),
   ("width".data, Json.num (r.width : ℚ)),
   ("height".data, Json.num (r.height : ℚ)),
   ("keywords".data, Json.arr (r.keywords.map Json.str))]

theorem recordToJson_eq (r : ImageRecord) : recordToJson r = Json.obj (recordMembers r) :=
  rfl

theorem stringifyMembers_cons_shape (k : List Char) (v : Json) (m2 : List Char × Json)
    (ms : List (List Char × Json)) (after : List Char) :
    stringifyMembers ((k, v) :: m2 :: ms) ++ '}' :: after
      = '"' :: (escBody k ++ '"' :: ':' :: (stringifyJson v ++ ',' ::
          (stringifyMembers (m2 :: ms) ++ '}' :: after))) := by
  show ('"' :: escBody k ++ '"' :: ':' :: stringifyJson v ++ ',' :: stringifyMembers (m2 :: ms))
      ++ '}' :: after = _
  simp [List.append_assoc]

theorem stringifyMembers_last_shape (k : List Char) (v : Json) (after : List Char) :
    stringifyMembers [(k, v)] ++ '}' :: after
      = '"' :: (escBody k ++ '"' :: ':' :: (stringifyJson v ++ '}' :: after)) := by
  show ('"' :: escBody k ++ '"' :: ':' :: stringifyJson v) ++ '}' :: after = _
  simp [List.append_assoc]

theorem comma_head_nondigit : ∀ (Z : List Char) (c : Char), (',' :: Z).head? = some c →
    c.isDigit = false ∧ c ≠ '.' ∧ c ≠ 'e' ∧ c ≠ 'E' := by
  intro Z c hc
  injection hc with hc
  subst hc
  exact ⟨by decide, by decide, by decide, by decide⟩

theorem parseMembers_record (r : ImageRecord) (g : Nat) (after : List Char)
    (hg : r.keywords.length + 2 ≤ g) :
    parseMembers (g + 5) (stringifyMembers (recordMembers r) ++ '}' :: after)
      = some (recordMembers r, after) := by
  obtain ⟨g', rfl⟩ : ∃ g', g = g' + 1 := ⟨g - 1, by omega⟩
  have hv5 : parseJVal (g' + 1)
      (stringifyJson (Json.arr (r.keywords.map Json.str)) ++ '}' :: after)
      = some (Json.arr (r.keywords.map Json.str), '}' :: after) := by
    rw [show stringifyJson (Json.arr (r.keywords.map Json.str)) ++ '}' :: after
        = '[' :: (stringifyElems (r.keywords.map Json.str) ++ ']' :: ('}' :: after)) by
      show ('[' :: stringifyElems (r.keywords.map Json.str) ++ [']']) ++ '}' :: after = _
      simp [List.append_assoc]]
    exact parseJVal_strArr _ g' _ (by omega)
  have hm5 : parseMembers (g' + 2)
      (stringifyMembers [("keywords".data, Json.arr (r.keywords.map Json.str))]
        ++ '}' :: after)
      = some ([("keywords".data, Json.arr (r.keywords.map Json.str))], after) := by
    rw [stringifyMembers_last_shape]
    exact parseMembers_last (g' + 1) _ _ _ _ hv5
  have hv4 : parseJVal (g' + 2)
      (stringifyJson (Json.num (r.height : ℚ)) ++ ',' ::
        (stringifyMembers [("keywords".data, Json.arr (r.keywords.map Json.str))]
          ++ '}' :: after))
      = some (Json.num (r.height : ℚ), ',' ::
        (stringifyMembers [("keywords".data, Json.arr (r.keywords.map Json.str))]
          ++ '}' :: after)) := by
    rw [show stringifyJson (Json.num (r.height : ℚ)) = natDigits r.height from
      numLit_natCast r.height]
    exact parseJVal_num (g' + 1) r.height _ (comma_head_nondigit _)
  have hm4 : parseMembers (g' + 3)
      (stringifyMembers [("height".data, Json.num (r.height : ℚ)),
        ("keywords".data, Json.arr (r.keywords.map Json.str))] ++ '}' :: after)
      = some ([("height".data, Json.num (r.height : ℚ)),
        ("keywords".data, Json.arr (r.keywords.map Json.str))], after) := by
    rw [stringifyMembers_cons_shape]
    exact parseMembers_cons (g' + 2) _ _ _ _ _ _ hv4 hm5
  have hv3 : parseJVal (g' + 3)
      (stringifyJson (Json.num (r.width : ℚ)) ++ ',' ::
        (stringifyMembers [("height".data, Json.num (r.height : ℚ)),
          ("keywords".data, Json.arr (r.keywords.map Json.str))] ++ '}' :: after))
      = some (Json.num (r.width : ℚ), ',' ::
        (stringifyMembers [("height".data, Json.num (r.height : ℚ)),
          ("keywords".data, Json.arr (r.keywords.map Json.str))] ++ '}' :: after)) := by
    rw [show stringifyJson (Json.num (r.width : ℚ)) = natDigits r.width from
      numLit_natCast r.width]
    exact parseJVal_num (g' + 2) r.width _ (comma_head_nondigit _)
  have hm3 : parseMembers (g' + 4)
      (stringifyMembers [("width".data, Json.num (r.width : ℚ)),
        ("height".data, Json.num (r.height : ℚ)),
        ("keywords".data, Json.arr (r.keywords.map Json.str))] ++ '}' :: after)
      = some ([("width".data, Json.num (r.width : ℚ)),
        ("height".data, Json.num (r.height : ℚ)),
        ("keywords".data, Json.arr (r.keywords.map Json.str))], after) := by
    rw [stringifyMembers_cons_shape]
    exact parseMembers_cons (g' + 3) _ _ _ _ _ _ hv3 hm4
  have hv2 : parseJVal (g' + 4)
      (stringifyJson (Json.str r.mimeType) ++ ',' ::
        (stringifyMembers [("width".data, Json.num (r.width : ℚ)),
          ("height".data, Json.num (r.height : ℚ)),
          ("keywords".data, Json.arr (r.keywords.map Json.str))] ++ '}' :: after))
      = some (Json.str r.mimeType, ',' ::
        (stringifyMembers [("width".data, Json.num (r.width : ℚ)),
          ("height".data, Json.num (r.height : ℚ)),
          ("keywords".data, Json.arr (r.keywords.map Json.str))] ++ '}' :: after)) := by
    rw [show stringifyJson (Json.str r.mimeType) ++ ',' ::
        (stringifyMembers [("width".data, Json.num (r.width : ℚ)),
          ("height".data, Json.num (r.height : ℚ)),
          ("keywords".data, Json.arr (r.keywords.map Json.str))] ++ '}' :: after)
        = '"' :: (escBody r.mimeType ++ '"' :: (',' ::
          (stringifyMembers [("width".data, Json.num (r.width : ℚ)),
            ("height".data, Json.num (r.height : ℚ)),
            ("keywords".data, Json.arr (r.keywords.map Json.str))] ++ '}' :: after))) by
      show ('"' :: escBody r.mimeType ++ ['"']) ++ ',' :: _ = _
      simp [List.append_assoc]]
    exact parseJVal_str (g' + 3) r.mimeType _
  have hm2 : parseMembers (g' + 5)
      (stringifyMembers [("mimeType".data, Json.str r.mimeType),
        ("width".data, Json.num (r.width : ℚ)),
        ("height".data, Json.num (r.height : ℚ)),
        ("keywords".data, Json.arr (r.keywords.map Json.str))] ++ '}' :: after)
      = some ([("mimeType".data, Json.str r.mimeType),
        ("width".data, Json.num (r.width : ℚ)),
        ("height".data, Json.num (r.height : ℚ)),
        ("keywords".data, Json.arr (r.keywords.map Json.str))], after) := by
    rw [stringifyMembers_cons_shape]
    exact parseMembers_cons (g' + 4) _ _ _ _ _ _ hv2 hm3
  have hv1 : parseJVal (g' + 5)
      (stringifyJson (Json.str r.filename) ++ ',' ::
        (stringifyMembers [("mimeType".data, Json.str r.mimeType),
          ("width".data, Json.num (r.width : ℚ)),
          ("height".data, Json.num (r.height : ℚ)),
          ("keywords".data, Json.arr (r.keywords.map Json.str))] ++ '}' :: after))
      = some (Json.str r.filename, ',' ::
        (stringifyMembers [("mimeType".data, Json.str r.mimeType),
          ("width".data, Json.num (r.width : ℚ)),
          ("height".data, Json.num (r.height : ℚ)),
          ("keywords".data, Json.arr (r.keywords.map Json.str))] ++ '}' :: after)) := by
    rw [show stringifyJson (Json.str r.filename) ++ ',' ::
        (stringifyMembers [("mimeType".data, Json.str r.mimeType),
          ("width".data, Json.num (r.width : ℚ)),
          ("height".data, Json.num (r.height : ℚ)),
          ("keywords".data, Json.arr (r.keywords.map Json.str))] ++ '}' :: after)
        = '"' :: (escBody r.filename ++ '"' :: (',' ::
          (stringifyMembers [("mimeType".data, Json.str r.mimeType),
            ("width".data, Json.num (r.width : ℚ)),
            ("height".data, Json.num (r.height : ℚ)),
            ("keywords".data, Json.arr (r.keywords.map Json.str))] ++ '}' :: after))) by
      show ('"' :: escBody r.filename ++ ['"']) ++ ',' :: _ = _
      simp [List.append_assoc]]
    exact parseJVal_str (g' + 4) r.filename _
  show parseMembers (g' + 5 + 1) (stringifyMembers (recordMembers r) ++ '}' :: after)
      = some (recordMembers r, after)
  rw [show (recordMembers r : List (List Char × Json))
      = ("filename".data, Json.str r.filename) :: ("mimeType".data, Json.str r.mimeType)
        :: ("width".data, Json.num (r.width : ℚ)) :: ("height".data, Json.num (r.height : ℚ))
        :: [("keywords".data, Json.arr (r.keywords.map Json.str))] from rfl]
  rw [stringifyMembers_cons_shape]
  exact parseMembers_cons (g' + 5) _ _ _ _ _ _ hv1 hm2

theorem stringifyElems_strs_len (ks : List (List Char)) :
    ks.length ≤ (stringifyElems (ks.map Json.str)).length := by
  induction ks with
  | nil => simp [stringifyElems]
  | cons k kt ih =>
      cases kt with
      | nil =>
          rw [show stringifyElems ([k].map Json.str) = '"' :: escBody k ++ ['"'] from rfl]
          simp
      | cons k2 kt2 =>
          rw [show stringifyElems ((k :: k2 :: kt2).map Json.str)
              = ('"' :: escBody k ++ ['"']) ++ ',' ::
                  stringifyElems ((k2 :: kt2).map Json.str) from rfl]
          simp only [List.length_cons, List.length_append] at ih ⊢
          omega

theorem stringifyMembers_cons_len (k : List Char) (v : Json) (m : List Char × Json)
    (ms : List (List Char × Json)) :
    (stringifyMembers (m :: ms)).length + 1 ≤ (stringifyMembers ((k, v) :: m :: ms)).length := by
  rw [show stringifyMembers ((k, v) :: m :: ms)
      = '"' :: escBody k ++ '"' :: ':' :: stringifyJson v ++ ',' :: stringifyMembers (m :: ms)
      from rfl]
  simp only [List.length_cons, List.length_append]
  omega

theorem recordLine_len_lb (r : ImageRecord) :
    r.keywords.length + 7 ≤ (recordLine r).length := by
  have h1 : (recordLine r).length = (stringifyMembers (recordMembers r)).length + 2 := by
    rw [show recordLine r = '{' :: (stringifyMembers (recordMembers r) ++ ['}']) from rfl]
    simp
  have e5 : (stringifyMembers [("keywords".data, Json.arr (r.keywords.map Json.str))]).length
      = 13 + (stringifyElems (r.keywords.map Json.str)).length := by
    rw [show stringifyMembers [("keywords".data, Json.arr (r.keywords.map Json.str))]
        = '"' :: escBody "keywords".data ++ '"' :: ':' ::
            ('[' :: stringifyElems (r.keywords.map Json.str) ++ [']']) from rfl]
    rw [show (escBody "keywords".data : List Char) = "keywords".data from rfl]
    simp only [List.length_cons, List.length_append, List.length_nil]
    omega
  have b4 := stringifyMembers_cons_len ("height".data) (Json.num (r.height : ℚ))
    ("keywords".data, Json.arr (r.keywords.map Json.str)) []
  have b3 := stringifyMembers_cons_len ("width".data) (Json.num (r.width : ℚ))
    ("height".data, Json.num (r.height : ℚ))
    [("keywords".data, Json.arr (r.keywords.map Json.str))]
  have b2 := stringifyMembers_cons_len ("mimeType".data) (Json.str r.mimeType)
    ("width".data, Json.num (r.width : ℚ))
    [("height".data, Json.num (r.height : ℚ)),
     ("keywords".data, Json.arr (r.keywords.map Json.str))]
  have b1 := stringifyMembers_cons_len ("filename".data) (Json.str r.filename)
    ("mimeType".data, Json.str r.mimeType)
    [("width".data, Json.num (r.width : ℚ)),
     ("height".data, Json.num (r.height : ℚ)),
     ("keywords".data, Json.arr (r.keywords.map Json.str))]
  have hke := stringifyElems_strs_len r.keywords
  show r.keywords.length + 7 ≤ (recordLine r).length
  rw [h1]
  rw [show stringifyMembers (recordMembers r)
      = stringifyMembers (("filename".data, Json.str r.filename)
          :: ("mimeType".data, Json.str r.mimeType)
          :: ("width".data, Json.num (r.width : ℚ))
          :: ("height".data, Json.num (r.height : ℚ))
          :: [("keywords".data, Json.arr (r.keywords.map Json.str))]) from rfl]
  omega

theorem parseJVal_record (r : ImageRecord) (g : Nat) (after : List Char)
    (hg : r.keywords.length + 2 ≤ g) :
    parseJVal (g + 6) (recordLine r ++ after) = some (recordToJson r, after) := by
  rw [show recordLine r ++ after
      = '{' :: (stringifyMembers (recordMembers r) ++ '}' :: after) by
    rw [show recordLine r = '{' :: (stringifyMembers (recordMembers r) ++ ['}']) from rfl]
    simp [List.append_assoc]]
  rw [parseJVal]
  rw [skipJWs_cons_false _ _ (by decide)]
  dsimp only
  rw [if_neg (show ¬('{' = '"') by decide), if_pos rfl]
  obtain ⟨Y, hY⟩ : ∃ Y, stringifyMembers (recordMembers r) ++ '}' :: after = '"' :: Y :=
    ⟨_, rfl⟩
  rw [hY, skipJWs_cons_false _ _ (by decide)]
  rw [if_neg (show ¬((('"' :: Y : List Char)).head? = some '}') by simp)]
  show (parseMembers (g + 5) ('"' :: Y)).map (fun p => (Json.obj p.1, p.2)) = _
  rw [← hY, parseMembers_record r g after hg]
  rw [recordToJson_eq]
  rfl

theorem parseJson_recordLine (r : ImageRecord) :
    parseJson (recordLine r) = some (recordToJson r) := by
  have hlb := recordLine_len_lb r
  obtain ⟨g, hg6, hgge⟩ : ∃ g, (recordLine r).length + 1 = g + 6
      ∧ r.keywords.length + 2 ≤ g :=
    ⟨(recordLine r).length - 5, by omega, by omega⟩
  unfold parseJson
  rw [hg6]
  rw [show (recordLine r : List Char) = recordLine r ++ [] by simp]
  rw [parseJVal_record r g [] hgge]
  simp [skipJWs]

theorem parseEntryLine_recordLine (r : ImageRecord) :
    parseEntryLine (recordLine r) = some ⟨recordToJson r, r.keywords.map Json.str⟩ := by
  unfold parseEntryLine
  rw [parseJson_recordLine]
  dsimp only
  rw [show objField (recordToJson r) "keywords".data
      = some (Json.arr (r.keywords.map Json.str)) from rfl]

theorem splitOnChar_no_sep (sep : Char) : ∀ (l : List Char), sep ∉ l →
    splitOnChar sep l = [l] := by
  intro l
  induction l with
  | nil => intro _; rfl
  | cons c t ih =>
      intro h
      have hc : ¬(c = sep) := fun he => h (by rw [← he]; exact List.mem_cons_self c t)
      rw [splitOnChar, if_neg hc, ih (fun hm => h (List.mem_cons_of_mem c hm))]

theorem splitOnChar_append (sep : Char) : ∀ (l Y : List Char), sep ∉ l →
    splitOnChar sep (l ++ sep :: Y) = l :: splitOnChar sep Y := by
  intro l
  induction l with
  | nil =>
      intro Y _
      rw [List.nil_append, splitOnChar, if_pos rfl]
  | cons c t ih =>
      intro Y h
      have hc : ¬(c = sep) := fun he => h (by rw [← he]; exact List.mem_cons_self c t)
      rw [List.cons_append, splitOnChar, if_neg hc, ih Y (fun hm => h (List.mem_cons_of_mem c hm))]

/-- Join lines with single newlines (no trailing newline); proof-side helper
describing the shape of the appended index content. -/
def joinNl : List (List Char) → List Char
  | [] => []
  | [l] => l
  | l :: rest => l ++ '\n' :: joinNl rest

theorem appendAll_join (r0 : ImageRecord) (rs : List ImageRecord) :
    appendAll (r0 :: rs) = joinNl ((r0 :: rs).map recordLine) ++ ['\n'] := by
  induction rs generalizing r0 with
  | nil => simp [appendAll, joinNl]
  | cons r1 rest ih =>
      show (recordLine r0 ++ ['\n']) ++ appendAll (r1 :: rest) = _
      rw [ih r1]
      rw [show joinNl ((r0 :: r1 :: rest).map recordLine)
          = recordLine r0 ++ '\n' :: joinNl ((r1 :: rest).map recordLine) from rfl]
      simp [List.append_assoc]

theorem jsTrim_append_nl (L : List Char) (a : Char) (t : List Char) (hL : L = a :: t)
    (ha : isWsChar a = false) (b : Char) (u : List Char) (hrev : L.reverse = b :: u)
    (hb : isWsChar b = false) :
    jsTrim (L ++ ['\n']) = L := by
  unfold jsTrim
  rw [hL, List.cons_append, List.dropWhile_cons, if_neg (by simp [ha])]
  rw [← List.cons_append, ← hL]
  rw [List.reverse_append]
  rw [show (['\n'] : List Char).reverse = ['\n'] from rfl]
  rw [List.singleton_append, List.dropWhile_cons, if_pos (by decide)]
  rw [hrev, List.dropWhile_cons, if_neg (by simp [hb])]
  rw [← hrev, List.reverse_reverse]

theorem splitOnChar_joinNl : ∀ (ls : List (List Char)), ls ≠ [] →
    (∀ l ∈ ls, '\n' ∉ l) → splitOnChar '\n' (joinNl ls) = ls := by
  intro ls
  induction ls with
  | nil => intro h _; exact absurd rfl h
  | cons l rest ih =>
      intro _ hnl
      cases rest with
      | nil =>
          show splitOnChar '\n' l = [l]
          exact splitOnChar_no_sep '\n' l (hnl l (List.mem_cons_self l []))
      | cons l2 rest2 =>
          show splitOnChar '\n' (l ++ '\n' :: joinNl (l2 :: rest2)) = _
          rw [splitOnChar_append '\n' l _ (hnl l (List.mem_cons_self l _))]
          rw [ih (by simp) (fun x hx => hnl x (List.mem_cons_of_mem l hx))]

theorem hexDigitChar_ne_nl : ∀ k : Nat, k < 16 → hexDigitChar k ≠ '\n' := by decide

theorem escChar_no_nl (c : Char) : '\n' ∉ escChar c := by
  unfold escChar
  split_ifs with h1 h2 h3 h4 h5 h6 h7 h8
  · decide
  · decide
  · decide
  · decide
  · decide
  · decide
  · decide
  · intro hm
    simp only [List.mem_cons, List.not_mem_nil, or_false] at hm
    rcases hm with hm | hm | hm | hm | hm | hm
    · exact absurd hm (by decide)
    · exact absurd hm (by decide)
    · exact absurd hm (by decide)
    · exact absurd hm (by decide)
    · exact hexDigitChar_ne_nl (c.toNat / 16) (by omega) hm.symm
    · exact hexDigitChar_ne_nl (c.toNat % 16) (by omega) hm.symm
  · intro hm
    simp only [List.mem_cons, List.not_mem_nil, or_false] at hm
    rw [← hm] at h8
    exact h8 (by decide)

theorem escBody_no_nl (s : List Char) : '\n' ∉ escBody s := by
  intro h
  unfold escBody at h
  rw [List.mem_flatten] at h
  obtain ⟨l, hl, hc⟩ := h
  obtain ⟨c, _, rfl⟩ := List.mem_map.mp hl
  exact escChar_no_nl c hc

theorem natDigits_no_nl (n : Nat) : '\n' ∉ natDigits n := by
  intro h
  exact absurd (natDigits_digits n '\n' h) (by decide)

theorem stringifyElems_strs_no_nl : ∀ (ks : List (List Char)),
    '\n' ∉ stringifyElems (ks.map Json.str) := by
  intro ks
  induction ks with
  | nil => simp [stringifyElems]
  | cons k kt ih =>
      cases kt with
      | nil =>
          rw [show stringifyElems ([k].map Json.str) = '"' :: escBody k ++ ['"'] from rfl]
          intro h
          rcases List.mem_cons.mp h with h | h
          · exact absurd h (by decide)
          · rcases List.mem_append.mp h with h | h
            · exact escBody_no_nl k h
            · rcases List.mem_cons.mp h with h | h
              · exact absurd h (by decide)
              · exact absurd h (List.not_mem_nil _)
      | cons k2 kt2 =>
          rw [show stringifyElems ((k :: k2 :: kt2).map Json.str)
              = ('"' :: escBody k ++ ['"']) ++ ',' ::
                  stringifyElems ((k2 :: kt2).map Json.str) from rfl]
          intro h
          rcases List.mem_append.mp h with h | h
          · rcases List.mem_cons.mp h with h | h
            · exact absurd h (by decide)
            · rcases List.mem_append.mp h with h | h
              · exact escBody_no_nl k h
              · rcases List.mem_cons.mp h with h | h
                · exact absurd h (by decide)
                · exact absurd h (List.not_mem_nil _)
          · rcases List.mem_cons.mp h with h | h
            · exact absurd h (by decide)
            · exact ih h

theorem not_mem_append (a : Char) (l1 l2 : List Char) (h1 : a ∉ l1) (h2 : a ∉ l2) :
    a ∉ l1 ++ l2 := by
  intro h
  rcases List.mem_append.mp h with h | h
  · exact h1 h
  · exact h2 h

theorem not_mem_cons (a c : Char) (l : List Char) (hne : a ≠ c) (h : a ∉ l) :
    a ∉ c :: l := by
  intro hm
  rcases List.mem_cons.mp hm with hm | hm
  · exact hne hm
  · exact h hm

theorem strJson_no_nl (s : List Char) : '\n' ∉ stringifyJson (Json.str s) := by
  rw [show stringifyJson (Json.str s) = '"' :: escBody s ++ ['"'] from rfl]
  apply not_mem_cons _ _ _ (by decide)
  exact not_mem_append _ _ _ (escBody_no_nl s)
    (not_mem_cons _ _ _ (by decide) (List.not_mem_nil _))

theorem numJson_no_nl (n : ℕ) : '\n' ∉ stringifyJson (Json.num (n : ℚ)) := by
  rw [show stringifyJson (Json.num (n : ℚ)) = numLit (n : ℚ) from rfl, numLit_natCast]
  exact natDigits_no_nl n

theorem arrJson_no_nl (ks : List (List Char)) :
    '\n' ∉ stringifyJson (Json.arr (ks.map Json.str)) := by
  rw [show stringifyJson (Json.arr (ks.map Json.str))
      = '[' :: stringifyElems (ks.map Json.str) ++ [']'] from rfl]
  apply not_mem_cons _ _ _ (by decide)
  exact not_mem_append _ _ _ (stringifyElems_strs_no_nl ks)
    (not_mem_cons _ _ _ (by decide) (List.not_mem_nil _))

theorem member_no_nl (k : List Char) (v : Json) (rest : List Char)
    (hv : '\n' ∉ stringifyJson v) (hrest : '\n' ∉ rest) :
    '\n' ∉ '"' :: escBody k ++ '"' :: ':' :: stringifyJson v ++ ',' :: rest := by
  apply not_mem_cons _ _ _ (by decide)
  apply not_mem_append
  · apply not_mem_append _ _ _ (escBody_no_nl k)
    apply not_mem_cons _ _ _ (by decide)
    apply not_mem_cons _ _ _ (by decide)
    exact hv
  · exact not_mem_cons _ _ _ (by decide) hrest

theorem lastMember_no_nl (k : List Char) (v : Json) (hv : '\n' ∉ stringifyJson v) :
    '\n' ∉ '"' :: escBody k ++ '"' :: ':' :: stringifyJson v := by
  apply not_mem_cons _ _ _ (by decide)
  apply not_mem_append _ _ _ (escBody_no_nl k)
  apply not_mem_cons _ _ _ (by decide)
  exact not_mem_cons _ _ _ (by decide) hv

theorem recordLine_no_nl (r : ImageRecord) : '\n' ∉ recordLine r := by
  rw [show recordLine r = '{' :: (stringifyMembers (recordMembers r) ++ ['}']) from rfl]
  apply not_mem_cons _ _ _ (by decide)
  apply not_mem_append
  · rw [show stringifyMembers (recordMembers r)
        = '"' :: escBody "filename".data ++ '"' :: ':' :: stringifyJson (Json.str r.filename)
            ++ ',' :: ('"' :: escBody "mimeType".data ++ '"' :: ':' ::
              stringifyJson (Json.str r.mimeType)
            ++ ',' :: ('"' :: escBody "width".data ++ '"' :: ':' ::
              stringifyJson (Json.num (r.width : ℚ))
            ++ ',' :: ('"' :: escBody "height".data ++ '"' :: ':' ::
              stringifyJson (Json.num (r.height : ℚ))
            ++ ',' :: ('"' :: escBody "keywords".data ++ '"' :: ':' ::
              stringifyJson (Json.arr (r.keywords.map Json.str)))))) from rfl]
    apply member_no_nl _ _ _ (strJson_no_nl r.filename)
    apply member_no_nl _ _ _ (strJson_no_nl r.mimeType)
    apply member_no_nl _ _ _ (numJson_no_nl r.width)
    apply member_no_nl _ _ _ (numJson_no_nl r.height)
    exact lastMember_no_nl _ _ (arrJson_no_nl r.keywords)
  · exact not_mem_cons _ _ _ (by decide) (List.not_mem_nil _)

theorem recordLine_rev (r : ImageRecord) : ∃ u, (recordLine r).reverse = '}' :: u := by
  rw [show recordLine r = '{' :: (stringifyMembers (recordMembers r) ++ ['}']) from rfl]
  refine ⟨(stringifyMembers (recordMembers r)).reverse ++ ['{'], ?_⟩
  simp

theorem joinNl_map_head (r0 : ImageRecord) (rs : List ImageRecord) :
    ∃ t, joinNl ((r0 :: rs).map recordLine) = '{' :: t := by
  cases rs with
  | nil => exact ⟨_, rfl⟩
  | cons r1 rest => exact ⟨_, rfl⟩

theorem joinNl_rev : ∀ (ls : List (List Char)), ls ≠ [] →
    (∀ l ∈ ls, ∃ u, l.reverse = '}' :: u) →
    ∃ u, (joinNl ls).reverse = '}' :: u := by
  intro ls
  induction ls with
  | nil => intro h _; exact absurd rfl h
  | cons l rest ih =>
      intro _ hall
      cases rest with
      | nil => exact hall l (List.mem_cons_self l [])
      | cons l2 r2 =>
          obtain ⟨u, hu⟩ := ih (by simp) (fun x hx => hall x (List.mem_cons_of_mem l hx))
          refine ⟨u ++ '\n' :: l.reverse, ?_⟩
          rw [show joinNl (l :: l2 :: r2) = l ++ '\n' :: joinNl (l2 :: r2) from rfl]
          rw [List.reverse_append, List.reverse_cons, hu]
          simp

theorem filterMap_parse_lines (rs : List ImageRecord) :
    (rs.map recordLine).filterMap parseEntryLine
      = rs.map (fun r => (⟨recordToJson r, r.keywords.map Json.str⟩ : IndexEntry)) := by
  induction rs with
  | nil => rfl
  | cons r rest ih =>
      simp [List.filterMap_cons, parseEntryLine_recordLine, ih]

/-- Reading the index content back line by line through the search parser. -/
def readIndexEntries (content : List Char) : List IndexEntry :=
  (splitOnChar '\n' (jsTrim content)).filterMap parseEntryLine

/-- C9: round-trip — appending any sequence of records one by one via
`addToIndex` and reading the content back line by line through the search
parser yields exactly one parsed record per appended record, in order, whose
JSON is exactly the record object that was serialized; the field values
(filename, mimeType, width, height, keywords) of each parsed object are
identical to those appended. -/
theorem index_append_round_trip :
    ∀ rs : List ImageRecord,
      readIndexEntries (appendAll rs)
        = rs.map (fun r => (⟨recordToJson r, r.keywords.map Json.str⟩ : IndexEntry)) ∧
      (readIndexEntries (appendAll rs)).length = rs.length ∧
      (∀ r : ImageRecord,
        objField (recordToJson r) "filename".data = some (Json.str r.filename) ∧
        objField (recordToJson r) "mimeType".data = some (Json.str r.mimeType) ∧
        objField (recordToJson r) "width".data = some (Json.num (r.width : ℚ)) ∧
        objField (recordToJson r) "height".data = some (Json.num (r.height : ℚ)) ∧
        objField (recordToJson r) "keywords".data
          = some (Json.arr (r.keywords.map Json.str))) := by
  intro rs
  have hmain : readIndexEntries (appendAll rs)
      = rs.map (fun r => (⟨recordToJson r, r.keywords.map Json.str⟩ : IndexEntry)) := by
    cases rs with
    | nil => rfl
    | cons r0 rest =>
        unfold readIndexEntries
        rw [appendAll_join r0 rest]
        obtain ⟨t, ht⟩ := joinNl_map_head r0 rest
        obtain ⟨u, hu⟩ := joinNl_rev ((r0 :: rest).map recordLine) (by simp)
          (fun l hl => by
            obtain ⟨r, _, rfl⟩ := List.mem_map.mp hl
            exact recordLine_rev r)
        rw [jsTrim_append_nl (joinNl ((r0 :: rest).map recordLine)) '{' t ht (by decide)
          '}' u hu (by decide)]
        rw [splitOnChar_joinNl _ (by simp) (fun l hl => by
          obtain ⟨r, _, rfl⟩ := List.mem_map.mp hl
          exact recordLine_no_nl r)]
        exact filterMap_parse_lines (r0 :: rest)
  refine ⟨hmain, by rw [hmain]; simp, fun r => ⟨rfl, rfl, rfl, rfl, rfl⟩⟩
